import Mathlib

/-!
# Verification of the lyrics-timeline core of `enhanced-lrc-maker`

Shallow embedding of `src/app/js/lyrics.js`.  JavaScript numbers are
modelled as exact rationals (`ℚ`); the inputs analysed here keep all
arithmetic exact in IEEE doubles as well, so the model is faithful on them.
`null`/`undefined` time values are modelled as `none : Option ℚ`.
A JS `NaN` produced by out-of-range array reads inside `fromLRC` is also
modelled as `none`: in every operation of this file NaN and `null` behave
identically (both are falsy and neither equals any number under `==`
in the code paths exercised).  Thrown JS exceptions (TypeError from a
property access on `undefined`, failed `assert`) are modelled with
`Except`.
-/

/-- A JS runtime failure escaping one of the modelled functions. -/
inductive JsError where
  /-- TypeError: property access on `undefined` (e.g. `this[index].time`
  with an out-of-range `index`, or `tmp[0]` when a regex match failed). -/
  | typeError : JsError
  /-- A failed `assert(cond, msg)` call. -/
  | assertFail : String → JsError
deriving Repr, DecidableEq

/-- One word of the timeline: `{text, time}` (the `dom` attachment of the
presentation layer is not part of the core data model). -/
structure Word where
  text : String
  time : Option ℚ
deriving Repr, DecidableEq, Inhabited

/-- A `Lyrics` object: an array of words plus the (optional) media duration. -/
structure Lyrics where
  words : List Word
  duration : Option ℚ
deriving Repr, DecidableEq

/-- JS truthiness of a time value: `null`/`undefined` and `0` are falsy,
any other number is truthy (`NaN`, also falsy, is modelled as `none`). -/
def truthyTime : Option ℚ → Bool
  | none => false
  | some q => !(q == 0)

/-- JS `parseInt` applied to a (finite, decimally rendered) number:
truncation toward zero. -/
def truncQ (q : ℚ) : ℤ := if 0 ≤ q then ⌊q⌋ else ⌈q⌉

/-- JS `a % b` on numbers (`fmod`: remainder with the sign of the dividend). -/
def jsFmod (a b : ℚ) : ℚ := a - b * truncQ (a / b)

/-- `List.mapIdx` with an explicit starting index, written so that its
pointwise behaviour is easy to reason about; used to model the for-loops
of `setTimeOfWord` which act on each array slot independently. -/
def mapIdxFrom (f : ℕ → α → β) (k : ℕ) : List α → List β
  | [] => []
  | a :: as => f k a :: mapIdxFrom f (k + 1) as

theorem mapIdxFrom_length (f : ℕ → α → β) (k : ℕ) (l : List α) :
    (mapIdxFrom f k l).length = l.length := by
  induction l generalizing k with
  | nil => rfl
  | cons a as ih => simp [mapIdxFrom, ih]

theorem mapIdxFrom_getElem? (f : ℕ → α → β) (k j : ℕ) (l : List α) :
    (mapIdxFrom f k l)[j]? = (l[j]?).map (f (k + j)) := by
  induction l generalizing k j with
  | nil => simp [mapIdxFrom]
  | cons a as ih =>
    cases j with
    | zero => simp [mapIdxFrom]
    | succ j => simpa [mapIdxFrom, Nat.add_assoc, Nat.add_comm 1 j] using ih (k + 1) j

/-- The time stored at index `j` (`none` for an out-of-range index). -/
def tOf (ws : List Word) (j : ℕ) : Option ℚ :=
  match ws[j]? with
  | some w => w.time
  | none => none

/-- The single repair step `setTimeOfWord` applies to the slot at index `j`
after the word at index `i` received the new time `tv`
(lyrics.js lines 34-49): a *truthy* later time `<= tv` is cleared, a
*truthy* earlier time `>= tv` is cleared, everything else is untouched. -/
def repairWord (i : ℕ) (tv : ℚ) (j : ℕ) (u : Word) : Word :=
  if i < j ∧ truthyTime u.time = true ∧ u.time.getD 0 ≤ tv then { text := u.text, time := none }
  else if j < i ∧ truthyTime u.time = true ∧ tv ≤ u.time.getD 0 then { text := u.text, time := none }
  else u

/-- `Lyrics.prototype.setTimeOfWord(index, time)` (lyrics.js lines 26-50).

Returns the updated object together with the list of `timeChanged`
events `(index, newTime)` in emission order.  An out-of-range `index`
makes `this[index].time` throw a TypeError (there is no explicit check
in the code).  Clearing (`time == null`) skips both validation passes;
note that `time == 0` does *not* (`0 == null` is false in JS). -/
def setTimeOfWord (l : Lyrics) (index : ℤ) (t : Option ℚ) :
    Except JsError (Lyrics × List (ℤ × Option ℚ)) :=
  if h : 0 ≤ index ∧ index.toNat < l.words.length then
    let i := index.toNat
    let w := l.words.get ⟨i, h.2⟩
    let ev0 : List (ℤ × Option ℚ) := if w.time ≠ t then [(index, t)] else []
    let ws1 := l.words.set i { text := w.text, time := t }
    match t with
    | none => .ok (⟨ws1, l.duration⟩, ev0)
    | some tv =>
      let ws2 := mapIdxFrom (repairWord i tv) 0 ws1
      let evF := (((List.range ws1.length).filter fun j =>
          i < j ∧ truthyTime (tOf ws1 j) = true ∧ (tOf ws1 j).getD 0 ≤ tv).map
            fun j => ((j : ℤ), (none : Option ℚ)))
      let evB := ((((List.range ws1.length).filter fun j =>
          j < i ∧ truthyTime (tOf ws1 j) = true ∧ tv ≤ (tOf ws1 j).getD 0).reverse).map
            fun j => ((j : ℤ), (none : Option ℚ)))
      .ok (⟨ws2, l.duration⟩, ev0 ++ evF ++ evB)
  else .error .typeError

/-- A sequence of `setTimeOfWord` calls, propagating any thrown error. -/
def applyCalls (l : Lyrics) (calls : List (ℤ × Option ℚ)) : Except JsError Lyrics :=
  calls.foldlM (fun acc c => (setTimeOfWord acc c.1 c.2).map Prod.fst) l

/-- Plain monotonicity over explicitly timed words, as claimed by the spec:
for i < j with both times set, `time(i) <= time(j)`. -/
def timesMonotone (ws : List Word) : Prop :=
  ∀ j, j < ws.length → ∀ i, i < j → ∀ a b,
    tOf ws i = some a → tOf ws j = some b → a ≤ b

/-- Monotonicity restricted to *truthy* (nonzero) explicit times — the
invariant the code actually maintains, since all its guards test
`this[i].time` for truthiness. -/
def truthyMonotone (ws : List Word) : Prop :=
  ∀ j, j < ws.length → ∀ i, i < j →
    truthyTime (tOf ws i) = true → truthyTime (tOf ws j) = true →
    (tOf ws i).getD 0 ≤ (tOf ws j).getD 0

deriving instance DecidableEq for Except

instance (ws : List Word) : Decidable (truthyMonotone ws) := by
  unfold truthyMonotone
  infer_instance

/-- The scan loop of `getIndexForTime` (lyrics.js lines 63-89).
`i` is the loop counter, `(eI, eT)` the current "earlier" anchor.
A `none` result models the `undefined`/`NaN` values JS produces when the
list is empty or when the interpolation divides by zero (the division
then yields `NaN`/`±Infinity` and `parseInt` of those is `NaN`). -/
def indexScan (d T : ℚ) (ws : List Word) (i eI : ℕ) (eT : ℚ) : Option ℤ :=
  match ws with
  | [] => none
  | w :: rest =>
    let isLast := rest.isEmpty
    let tw : Option ℚ := if truthyTime w.time = false ∧ isLast then some d else w.time
    if isLast ∨ (truthyTime tw = true ∧ T ≤ tw.getD 0) then
      if tw.getD 0 - eT = 0 then none
      else some (truncQ ((eI : ℚ) + (T - eT) / (tw.getD 0 - eT) * ((i : ℚ) - (eI : ℚ))))
    else
      if truthyTime w.time = true then indexScan d T rest (i + 1) i (w.time.getD 0)
      else indexScan d T rest (i + 1) eI eT

/-- `Lyrics.prototype.getIndexForTime(timestamp)` (lyrics.js lines 57-90).
Starts from the implicit anchor "index 0 at 0 seconds"; a falsy
(`undefined`/`0`) time on the last word is replaced by the duration.
The `assert(this.duration, 'No duration set.')` throws when `duration`
is falsy. -/
def getIndexForTime (l : Lyrics) (T : ℚ) : Except JsError (Option ℤ) :=
  if truthyTime l.duration = false then .error (.assertFail "No duration set.")
  else .ok (indexScan (l.duration.getD 0) T l.words 0 0 0)

/-- The backward anchor search of `getApproximateTime` (lyrics.js lines
103-110): the nearest slot `<= index - 1` with a truthy time, defaulting
to `(0, 0)`. -/
def findEarlierAnchor (ws : List Word) (index : ℤ) : ℕ × ℚ :=
  if index - 1 < 0 then (0, 0)
  else
    match (List.range ((index - 1).toNat + 1)).reverse.find?
        (fun j => truthyTime (tOf ws j)) with
    | some j => (j, (tOf ws j).getD 0)
    | none => (0, 0)

/-- The forward search: `laterTimestamp` starts at `this.duration` (which
may itself be `undefined`, hence `Option ℚ`), `laterIndex` at `length-1`. -/
def findLaterAnchor (ws : List Word) (dur : Option ℚ) (index : ℤ) : ℤ × Option ℚ :=
  match ((List.range ws.length).drop (index + 1).toNat).find?
      (fun j => truthyTime (tOf ws j)) with
  | some j => ((j : ℤ), tOf ws j)
  | none => ((ws.length : ℤ) - 1, dur)

/-- `Lyrics.prototype.getApproximateTime(index)` (lyrics.js lines 99-124),
for a numeric (integer) `index`.  The only explicit validation in the code
is `assert(index.constructor === Number)`, which always passes for a
numeric argument; but the two anchor-searching loops read `this[i].time`
and therefore throw a TypeError whenever they reach an `i` outside
`[0, length)` — which happens exactly for `index - 1 >= length` (the
first access `this[index-1]` of the backward loop, entered when
`index - 1 >= 0`) and for `index + 1 < 0` with `index + 1 < length` (the
first access of the forward loop).  A `none` result models a
`NaN`/`±Infinity` value (division by zero, or a later anchor at the
undefined duration). -/
def getApproximateTime (l : Lyrics) (index : ℤ) : Except JsError (Option ℚ) :=
  if 0 ≤ index - 1 ∧ (l.words.length : ℤ) ≤ index - 1 then .error .typeError
  else if index + 1 < (l.words.length : ℤ) ∧ index + 1 < 0 then .error .typeError
  else
    match (findLaterAnchor l.words l.duration index).2 with
    | none => .ok none
    | some lT =>
      if ((findLaterAnchor l.words l.duration index).1 : ℚ)
          - ((findEarlierAnchor l.words index).1 : ℚ) = 0 then .ok none
      else .ok (some ((findEarlierAnchor l.words index).2 +
          ((index : ℚ) - ((findEarlierAnchor l.words index).1 : ℚ)) /
            (((findLaterAnchor l.words l.duration index).1 : ℚ)
              - ((findEarlierAnchor l.words index).1 : ℚ)) *
            (lT - (findEarlierAnchor l.words index).2)))

/-- Two-digit rendering used for the h/m/s fields of `Lyrics.toTimer`:
`( v >= 10 ) ? v : '0' + v`. -/
def padField (v : ℤ) : String := if 10 ≤ v then toString v else "0" ++ toString v

/-- Millisecond rendering of `Lyrics.toTimer`:
`( ms >= 100 ) ? ms : ( ms > 10 ) ? '0' + ms : '00' + ms`.
Note the `>` (not `>=`): `ms == 10` falls into the `'00' + ms` branch and
renders as the four characters `"0010"`. -/
def padMs (v : ℤ) : String :=
  if 100 ≤ v then toString v else if 10 < v then "0" ++ toString v else "00" ++ toString v

/-- `Lyrics.toTimer(time, withHours)` (lyrics.js lines 320-331) for a real
(non-NaN) number of seconds; the `isNaN` fallbacks to `'--'` are
unreachable for a rational input.  `Math.floor( time / 60 % 60 )` is
`⌊jsFmod (time/60) 60⌋`, and `parseInt`-free truncations follow JS
exactly (`Math.floor`, and fmod for `%`). -/
def toTimer (time : ℚ) (withHours : Bool) : String :=
  let h := ⌊time / 3600⌋
  let m := if withHours then ⌊jsFmod (time / 60) 60⌋ else ⌊time / 60⌋
  let s := ⌊jsFmod time 60⌋
  let ms := ⌊(time - (⌊time⌋ : ℚ)) * 1000⌋
  if withHours then padField h ++ ":" ++ padField m ++ ":" ++ padField s
  else padField m ++ ":" ++ padField s ++ "." ++ padMs ms


theorem tOf_set_time (ws : List Word) (i : ℕ) (hi : i < ws.length) (txt : String)
    (t : Option ℚ) (k : ℕ) :
    tOf (ws.set i { text := txt, time := t }) k = if k = i then t else tOf ws k := by
  unfold tOf
  rw [List.getElem?_set]
  by_cases hk : k = i
  · subst hk; simp [hi]
  · rw [if_neg (fun h => hk h.symm), if_neg hk]

theorem tOf_mapIdx_repair (ws1 : List Word) (i : ℕ) (tv : ℚ) (j : ℕ) :
    tOf (mapIdxFrom (repairWord i tv) 0 ws1) j =
      (match ws1[j]? with
       | some u => (repairWord i tv j u).time
       | none => none) := by
  unfold tOf
  rw [mapIdxFrom_getElem?]
  cases ws1[j]? <;> simp

/-- After `setTimeOfWord l index (some tv)` succeeds, the time at any slot
`k` is: `some tv` at the target index, and elsewhere either cleared or the
untouched original — and if it is still *truthy*, it is the original value
and lies strictly beyond `tv` on the correct side. -/
theorem setTimeOfWord_some_char (l : Lyrics) (index : ℤ) (tv : ℚ)
    (l' : Lyrics) (evs : List (ℤ × Option ℚ))
    (hok : setTimeOfWord l index (some tv) = .ok (l', evs)) :
    l'.duration = l.duration ∧ l'.words.length = l.words.length ∧
    index.toNat < l.words.length ∧
    tOf l'.words index.toNat = some tv ∧
    (∀ k, k ≠ index.toNat → truthyTime (tOf l'.words k) = true →
      tOf l'.words k = tOf l.words k ∧ truthyTime (tOf l.words k) = true ∧
      (index.toNat < k → tv < (tOf l.words k).getD 0) ∧
      (k < index.toNat → (tOf l.words k).getD 0 < tv)) := by
  unfold setTimeOfWord at hok
  split at hok
  case isFalse => exact absurd hok (by simp)
  case isTrue h =>
    simp only [Except.ok.injEq, Prod.mk.injEq] at hok
    obtain ⟨hl', _⟩ := hok
    have hws : l'.words = mapIdxFrom (repairWord index.toNat tv) 0
        (l.words.set index.toNat
          { text := (l.words.get ⟨index.toNat, h.2⟩).text, time := some tv }) := by
      rw [← hl']
    have hdur : l'.duration = l.duration := by rw [← hl']
    have hlen1 : (l.words.set index.toNat
        { text := (l.words.get ⟨index.toNat, h.2⟩).text, time := some tv }).length
        = l.words.length := by simp
    have htOf : ∀ k, tOf l'.words k =
        (match (l.words.set index.toNat
            { text := (l.words.get ⟨index.toNat, h.2⟩).text, time := some tv })[k]? with
         | some u => (repairWord index.toNat tv k u).time
         | none => none) := by
      intro k; rw [hws]; exact tOf_mapIdx_repair _ _ _ _
    refine ⟨hdur, by rw [hws, mapIdxFrom_length, hlen1], h.2, ?_, ?_⟩
    · rw [htOf]
      have h1 : (l.words.set index.toNat
          { text := (l.words.get ⟨index.toNat, h.2⟩).text, time := some tv })[index.toNat]?
          = some { text := (l.words.get ⟨index.toNat, h.2⟩).text, time := some tv } := by
        rw [List.getElem?_set]; simp [h.2]
      rw [h1]
      simp [repairWord]
    · intro k hk htr
      have hset : (l.words.set index.toNat
          { text := (l.words.get ⟨index.toNat, h.2⟩).text, time := some tv })[k]?
          = l.words[k]? := List.getElem?_set_ne (fun hik => hk hik.symm)
      have hEq0 : tOf l'.words k =
          (match l.words[k]? with
           | some u => (repairWord index.toNat tv k u).time
           | none => none) := by rw [htOf, hset]
      cases hu : l.words[k]? with
      | none =>
        rw [hEq0, hu] at htr
        simp [truthyTime] at htr
      | some u =>
        have htu : tOf l.words k = u.time := by unfold tOf; rw [hu]
        have hEq : tOf l'.words k = (repairWord index.toNat tv k u).time := by
          rw [hEq0, hu]
        rw [hEq] at htr
        unfold repairWord at htr hEq
        split at htr
        case isTrue h1 => simp [truthyTime] at htr
        case isFalse h1 =>
          rw [if_neg h1] at hEq
          split at htr
          case isTrue h2 => simp [truthyTime] at htr
          case isFalse h2 =>
            rw [if_neg h2] at hEq
            refine ⟨by rw [hEq, htu], by rw [htu]; exact htr, ?_, ?_⟩
            · intro hik
              rw [htu]
              by_contra hle
              push_neg at hle
              exact h1 ⟨hik, htr, hle⟩
            · intro hki
              rw [htu]
              by_contra hle
              push_neg at hle
              exact h2 ⟨hki, htr, hle⟩

/-- A single successful `setTimeOfWord` call preserves monotonicity of the
truthy (nonzero) explicit times. -/
theorem setTimeOfWord_preserves_truthyMonotone (l : Lyrics) (index : ℤ) (t : Option ℚ)
    (l' : Lyrics) (evs : List (ℤ × Option ℚ))
    (hmono : truthyMonotone l.words)
    (hok : setTimeOfWord l index t = .ok (l', evs)) :
    truthyMonotone l'.words := by
  match t with
  | none =>
    unfold setTimeOfWord at hok
    split at hok
    case isFalse => exact absurd hok (by simp)
    case isTrue h =>
      simp only [Except.ok.injEq, Prod.mk.injEq] at hok
      obtain ⟨hl', _⟩ := hok
      have hwords : l'.words = l.words.set index.toNat
          { text := (l.words.get ⟨index.toNat, h.2⟩).text, time := none } := by
        rw [← hl']
      intro j hj i hij hti htj
      rw [hwords] at hj hti htj ⊢
      rw [List.length_set] at hj
      rw [tOf_set_time _ _ h.2] at hti htj ⊢
      rw [tOf_set_time _ _ h.2]
      by_cases hii : i = index.toNat
      · rw [if_pos hii] at hti; simp [truthyTime] at hti
      · by_cases hjj : j = index.toNat
        · rw [if_pos hjj] at htj; simp [truthyTime] at htj
        · rw [if_neg hii] at hti ⊢
          rw [if_neg hjj] at htj ⊢
          exact hmono j hj i hij hti htj
  | some tv =>
    obtain ⟨_, hlen, hilt, hset, hchar⟩ := setTimeOfWord_some_char l index tv l' evs hok
    intro j hj i hij hti htj
    by_cases hii : i = index.toNat
    · have hjne : j ≠ index.toNat := by omega
      obtain ⟨hkeep, _, hgt, _⟩ := hchar j hjne htj
      rw [hii, hset, hkeep]
      have := hgt (by omega)
      simp only [Option.getD_some]
      exact le_of_lt this
    · by_cases hjj : j = index.toNat
      · obtain ⟨hkeep, _, _, hlt⟩ := hchar i hii hti
        rw [hjj, hset, hkeep]
        have := hlt (by omega)
        simp only [Option.getD_some]
        exact le_of_lt this
      · obtain ⟨hkeepi, htri, _, _⟩ := hchar i hii hti
        obtain ⟨hkeepj, htrj, _, _⟩ := hchar j hjj htj
        rw [hkeepi, hkeepj]
        exact hmono j (by omega) i hij htri htrj

theorem isEmpty_set (l : List α) (k : ℕ) (x : α) : (l.set k x).isEmpty = l.isEmpty := by
  cases l with
  | nil => rfl
  | cons b bs => cases k <;> rfl

/-- The repair passes never touch a slot whose stored time is `0`: the
guard `this[i].time` is falsy there. -/
theorem setTimeOfWord_keeps_zero (l : Lyrics) (index : ℤ) (t : Option ℚ)
    (l' : Lyrics) (evs : List (ℤ × Option ℚ)) (j : ℕ) (w : Word)
    (hok : setTimeOfWord l index t = .ok (l', evs)) (hj : (j : ℤ) ≠ index)
    (hw : l.words[j]? = some w) (h0 : w.time = some 0) :
    l'.words[j]? = some w := by
  unfold setTimeOfWord at hok
  split at hok
  case isFalse => exact absurd hok (by simp)
  case isTrue h =>
    have hji : j ≠ index.toNat := by omega
    match t, hok with
    | none, hok =>
      simp only [Except.ok.injEq, Prod.mk.injEq] at hok
      obtain ⟨hl', _⟩ := hok
      have : l'.words = l.words.set index.toNat
          { text := (l.words.get ⟨index.toNat, h.2⟩).text, time := none } := by rw [← hl']
      rw [this, List.getElem?_set_ne (fun hik => hji hik.symm), hw]
    | some tv, hok =>
      simp only [Except.ok.injEq, Prod.mk.injEq] at hok
      obtain ⟨hl', _⟩ := hok
      have hws : l'.words = mapIdxFrom (repairWord index.toNat tv) 0
          (l.words.set index.toNat
            { text := (l.words.get ⟨index.toNat, h.2⟩).text, time := some tv }) := by
        rw [← hl']
      rw [hws, mapIdxFrom_getElem?,
        List.getElem?_set_ne (fun hik => hji hik.symm), hw]
      have hrw : repairWord index.toNat tv j w = w := by
        unfold repairWord
        rw [if_neg, if_neg]
        · rintro ⟨-, htr, -⟩; rw [h0] at htr; simp [truthyTime] at htr
        · rintro ⟨-, htr, -⟩; rw [h0] at htr; simp [truthyTime] at htr
      simp [hrw]

/-- `indexScan` cannot tell a stored time `0` from an absent time: both are
falsy in every guard of the loop. -/
theorem indexScan_zero_irrelevant (d T : ℚ) (ws : List Word) (k : ℕ) (w : Word)
    (hw : ws[k]? = some w) (h0 : w.time = some 0) :
    ∀ (i eI : ℕ) (eT : ℚ),
      indexScan d T (ws.set k { text := w.text, time := none }) i eI eT
        = indexScan d T ws i eI eT := by
  induction ws generalizing k with
  | nil => simp at hw
  | cons a rest ih =>
    intro i eI eT
    cases k with
    | zero =>
      have ha : a = w := by simpa using hw
      subst ha
      show indexScan d T ({ text := a.text, time := none } :: rest) i eI eT = _
      simp only [indexScan, h0]
      have h1 : truthyTime none = false := rfl
      have h2 : truthyTime (some 0) = false := by simp [truthyTime]
      by_cases hE : rest.isEmpty
      · simp [hE, h1, h2]
      · simp [hE, h1, h2]
    | succ k =>
      have hw' : rest[k]? = some w := by simpa using hw
      show indexScan d T (a :: rest.set k { text := w.text, time := none }) i eI eT = _
      simp only [indexScan, isEmpty_set]
      rw [ih k hw' (i + 1) i (a.time.getD 0), ih k hw' (i + 1) eI eT]

theorem findEarlierAnchor_zero_irrelevant (ws : List Word) (k : ℕ) (w : Word)
    (hw : ws[k]? = some w) (h0 : w.time = some 0) (index : ℤ) :
    findEarlierAnchor (ws.set k { text := w.text, time := none }) index
      = findEarlierAnchor ws index := by
  have hk : k < ws.length := by
    by_contra hh
    push_neg at hh
    rw [List.getElem?_eq_none hh] at hw
    cases hw
  have htz : tOf ws k = some 0 := by unfold tOf; rw [hw]; exact h0
  have hpred : (fun j => truthyTime (tOf (ws.set k { text := w.text, time := none }) j))
      = fun j => truthyTime (tOf ws j) := by
    funext j
    rw [tOf_set_time _ _ hk]
    by_cases hj : j = k
    · rw [if_pos hj, hj, htz]; rfl
    · rw [if_neg hj]
  unfold findEarlierAnchor
  rw [hpred]
  by_cases hneg : index - 1 < 0
  · rw [if_pos hneg, if_pos hneg]
  · rw [if_neg hneg, if_neg hneg]
    cases hfind : (List.range ((index - 1).toNat + 1)).reverse.find?
        (fun j => truthyTime (tOf ws j)) with
    | none => rfl
    | some j =>
      have htr : truthyTime (tOf ws j) = true := by
        have := List.find?_some hfind
        simpa using this
      have hj : j ≠ k := by
        intro hjk; rw [hjk, htz] at htr; simp [truthyTime] at htr
      simp only []
      rw [tOf_set_time _ _ hk, if_neg hj]

theorem findLaterAnchor_zero_irrelevant (ws : List Word) (dur : Option ℚ) (k : ℕ) (w : Word)
    (hw : ws[k]? = some w) (h0 : w.time = some 0) (index : ℤ) :
    findLaterAnchor (ws.set k { text := w.text, time := none }) dur index
      = findLaterAnchor ws dur index := by
  have hk : k < ws.length := by
    by_contra hh
    push_neg at hh
    rw [List.getElem?_eq_none hh] at hw
    cases hw
  have htz : tOf ws k = some 0 := by unfold tOf; rw [hw]; exact h0
  have hpred : (fun j => truthyTime (tOf (ws.set k { text := w.text, time := none }) j))
      = fun j => truthyTime (tOf ws j) := by
    funext j
    rw [tOf_set_time _ _ hk]
    by_cases hj : j = k
    · rw [if_pos hj, hj, htz]; rfl
    · rw [if_neg hj]
  unfold findLaterAnchor
  rw [hpred, List.length_set]
  cases hfind : ((List.range ws.length).drop (index + 1).toNat).find?
      (fun j => truthyTime (tOf ws j)) with
  | none => rfl
  | some j =>
    have htr : truthyTime (tOf ws j) = true := by
      have := List.find?_some hfind
      simpa using this
    have hj : j ≠ k := by
      intro hjk; rw [hjk, htz] at htr; simp [truthyTime] at htr
    simp only []
    rw [tOf_set_time _ _ hk, if_neg hj]

/-- `getApproximateTime` cannot tell a stored time `0` from an absent one:
both anchor searches test `this[i].time` for truthiness. -/
theorem getApproximateTime_zero_irrelevant (l : Lyrics) (k : ℕ) (w : Word)
    (hw : l.words[k]? = some w) (h0 : w.time = some 0) (index : ℤ) :
    getApproximateTime ⟨l.words.set k { text := w.text, time := none }, l.duration⟩ index
      = getApproximateTime l index := by
  unfold getApproximateTime
  simp only [List.length_set]
  rw [findEarlierAnchor_zero_irrelevant l.words k w hw h0 index,
    findLaterAnchor_zero_irrelevant l.words l.duration k w hw h0 index]

/-- `getIndexForTime` cannot tell a stored time `0` from an absent one. -/
theorem getIndexForTime_zero_irrelevant (l : Lyrics) (k : ℕ) (w : Word)
    (hw : l.words[k]? = some w) (h0 : w.time = some 0) (T : ℚ) :
    getIndexForTime ⟨l.words.set k { text := w.text, time := none }, l.duration⟩ T
      = getIndexForTime l T := by
  unfold getIndexForTime
  by_cases hd : truthyTime l.duration = false
  · rw [if_pos hd, if_pos hd]
  · rw [if_neg hd, if_neg hd]
    rw [indexScan_zero_irrelevant _ _ l.words k w hw h0 0 0 0]

/-- C1 (amended): after any successful sequence of `setTimeOfWord` calls
starting from a timeline whose *truthy* (nonzero) explicit times are
monotone (e.g. a fully untimed one), the truthy explicit times are still
monotone: for i < j with both times set and nonzero, time(i) <= time(j).
Words whose explicit time is `0` are exempt: `0` is falsy in JS, so the
repair passes ignore such words and plain monotonicity can be violated
(see the counterexample). -/
theorem setTimeOfWord_sequences_preserve_truthyMonotone (l : Lyrics)
    (calls : List (ℤ × Option ℚ)) (l' : Lyrics)
    (hmono : truthyMonotone l.words) (hok : applyCalls l calls = .ok l') :
    truthyMonotone l'.words := by
  induction calls generalizing l with
  | nil =>
    unfold applyCalls at hok
    simp only [List.foldlM_nil] at hok
    cases hok
    exact hmono
  | cons c cs ih =>
    unfold applyCalls at hok ih
    rw [List.foldlM_cons] at hok
    cases hstep : setTimeOfWord l c.1 c.2 with
    | error e =>
      rw [hstep] at hok
      exact absurd (show (Except.error e : Except JsError Lyrics) = Except.ok l' from hok)
        (by simp)
    | ok r =>
      rw [hstep] at hok
      obtain ⟨l1, evs⟩ := r
      have hrest : List.foldlM (fun acc c => (setTimeOfWord acc c.1 c.2).map Prod.fst) l1 cs
          = .ok l' := hok
      exact ih l1 (setTimeOfWord_preserves_truthyMonotone l c.1 c.2 l1 evs hmono hstep) hrest

/-- C1 (counterexample to the claim as stated): on a two-word timeline,
`setTimeOfWord(1, 0)` followed by `setTimeOfWord(0, 5)` succeeds and leaves
`time(0) = 5 > 0 = time(1)` — both times are explicitly set, yet
monotonicity fails, because the backward/forward repair guards test
`this[i].time` for truthiness and a stored `0` is falsy. -/
theorem monotonicity_invariant_counterexample :
    applyCalls ⟨[⟨"a", none⟩, ⟨"b", none⟩], some 10⟩ [(1, some 0), (0, some 5)]
      = .ok ⟨[⟨"a", some 5⟩, ⟨"b", some 0⟩], some 10⟩ ∧
    ¬ timesMonotone [⟨"a", some 5⟩, ⟨"b", some 0⟩] := by
  refine ⟨by with_unfolding_all decide, fun hmono => ?_⟩
  have h := hmono 1 (by norm_num) 0 (by norm_num) 5 0 rfl rfl
  norm_num at h

theorem setTimeOfWord_sequences_preserve_truthyMonotone_witness :
    truthyMonotone ([⟨"a", none⟩, ⟨"b", none⟩] : List Word) ∧
    applyCalls ⟨[⟨"a", none⟩, ⟨"b", none⟩], some 10⟩ [(0, some 1), (1, some 2)]
      = .ok ⟨[⟨"a", some 1⟩, ⟨"b", some 2⟩], some 10⟩ ∧
    truthyMonotone (Lyrics.mk [⟨"a", some 1⟩, ⟨"b", some 2⟩] (some 10)).words :=
  ⟨by with_unfolding_all decide, by with_unfolding_all decide,
    setTimeOfWord_sequences_preserve_truthyMonotone
      ⟨[⟨"a", none⟩, ⟨"b", none⟩], some 10⟩ [(0, some 1), (1, some 2)]
      ⟨[⟨"a", some 1⟩, ⟨"b", some 2⟩], some 10⟩ (by with_unfolding_all decide)
      (by with_unfolding_all decide)⟩

/-- C8: `setTimeOfWord` fails for every index outside `[0, length)` —
the very first line `this[index].time` throws on such an index (the spec
files this failure under its `IndexOutOfRange` error kind). -/
theorem setTimeOfWord_out_of_range_fails (l : Lyrics) (index : ℤ) (t : Option ℚ)
    (hout : index < 0 ∨ (l.words.length : ℤ) ≤ index) :
    ∃ e, setTimeOfWord l index t = .error e := by
  refine ⟨.typeError, ?_⟩
  unfold setTimeOfWord
  rw [dif_neg]
  rintro ⟨h1, h2⟩
  rcases hout with h | h <;> omega

theorem setTimeOfWord_out_of_range_fails_witness :
    ((5 : ℤ) < 0 ∨ ((Lyrics.mk [⟨"a", none⟩, ⟨"b", none⟩] (some 10)).words.length : ℤ) ≤ 5) ∧
    ∃ e, setTimeOfWord ⟨[⟨"a", none⟩, ⟨"b", none⟩], some 10⟩ 5 (some 2) = .error e :=
  ⟨Or.inr (by decide),
    setTimeOfWord_out_of_range_fails ⟨[⟨"a", none⟩, ⟨"b", none⟩], some 10⟩ 5 (some 2)
      (Or.inr (by decide))⟩

/-- C9: a stored explicit time `0` behaves exactly like an untimed word:
(1) the repair passes of `setTimeOfWord` never clear a word (at another
index) whose explicit time is `0`, even when it violates monotonicity
against the newly set time; (2) `getIndexForTime` and (3)
`getApproximateTime` are unchanged when such a word's time is replaced by
`null` — every guard tests `this[i].time` for truthiness, and `0` is falsy. -/
theorem zero_time_behaves_as_untimed :
    (∀ (l : Lyrics) (index : ℤ) (t : Option ℚ) (l' : Lyrics)
        (evs : List (ℤ × Option ℚ)) (j : ℕ) (w : Word),
        setTimeOfWord l index t = .ok (l', evs) → (j : ℤ) ≠ index →
        l.words[j]? = some w → w.time = some 0 → l'.words[j]? = some w) ∧
    (∀ (l : Lyrics) (k : ℕ) (w : Word), l.words[k]? = some w → w.time = some 0 →
      ∀ T : ℚ,
        getIndexForTime ⟨l.words.set k { text := w.text, time := none }, l.duration⟩ T
          = getIndexForTime l T) ∧
    (∀ (l : Lyrics) (k : ℕ) (w : Word), l.words[k]? = some w → w.time = some 0 →
      ∀ index : ℤ,
        getApproximateTime ⟨l.words.set k { text := w.text, time := none }, l.duration⟩ index
          = getApproximateTime l index) :=
  ⟨fun l index t l' evs j w hok hj hw h0 =>
      setTimeOfWord_keeps_zero l index t l' evs j w hok hj hw h0,
   fun l k w hw h0 T => getIndexForTime_zero_irrelevant l k w hw h0 T,
   fun l k w hw h0 index => getApproximateTime_zero_irrelevant l k w hw h0 index⟩

theorem zero_time_behaves_as_untimed_witness :
    (Lyrics.mk [⟨"a", some 0⟩, ⟨"b", some 5⟩] (some 10)).words[0]? = some ⟨"a", some 0⟩ ∧
    getIndexForTime
        ⟨([⟨"a", some 0⟩, ⟨"b", some 3⟩] : List Word).set 0 { text := "a", time := none },
          some 10⟩ 7
      = getIndexForTime ⟨[⟨"a", some 0⟩, ⟨"b", some 3⟩], some 10⟩ 7 ∧
    getApproximateTime
        ⟨([⟨"a", some 0⟩, ⟨"b", some 3⟩] : List Word).set 0 { text := "a", time := none },
          some 10⟩ 1
      = getApproximateTime ⟨[⟨"a", some 0⟩, ⟨"b", some 3⟩], some 10⟩ 1 :=
  ⟨zero_time_behaves_as_untimed.1 ⟨[⟨"a", some 0⟩, ⟨"b", none⟩], some 10⟩ 1 (some 5)
      ⟨[⟨"a", some 0⟩, ⟨"b", some 5⟩], some 10⟩ [(1, some 5)] 0 ⟨"a", some 0⟩
      (by with_unfolding_all decide) (by decide) (by decide) rfl,
   zero_time_behaves_as_untimed.2.1 ⟨[⟨"a", some 0⟩, ⟨"b", some 3⟩], some 10⟩ 0
      ⟨"a", some 0⟩ (by decide) rfl 7,
   zero_time_behaves_as_untimed.2.2 ⟨[⟨"a", some 0⟩, ⟨"b", some 3⟩], some 10⟩ 0
      ⟨"a", some 0⟩ (by decide) rfl 1⟩

/-- C10: `getIndexForTime` can return an index outside `[0, length)`:
on a two-word fully untimed timeline with duration 10, querying timestamp
30 (three times the duration) linearly extrapolates to index 3, which is
returned without clamping. -/
theorem getIndexForTime_unclamped :
    getIndexForTime ⟨[⟨"a", none⟩, ⟨"b", none⟩], some 10⟩ 30 = .ok (some 3) ∧
    (Lyrics.mk [⟨"a", none⟩, ⟨"b", none⟩] (some 10)).words.length = 2 ∧
    ¬ ((3 : ℤ) < 2) := by
  refine ⟨by with_unfolding_all decide, rfl, by decide⟩

theorem truncQ_natCast (i : ℕ) : truncQ (i : ℚ) = (i : ℤ) := by
  unfold truncQ
  rw [if_pos (by positivity)]
  exact_mod_cast Int.floor_natCast i

/-- On a fully-timed list with strictly increasing nonzero times, querying
the scan at the `m`-th time makes it stop exactly at position `m`, where
the interpolation factor is exactly `1` and the returned index is the loop
counter at the hit. -/
theorem indexScan_strict_hit (d T : ℚ) (ts : List ℚ) :
    ∀ (ws : List Word) (i eI : ℕ) (eT : ℚ) (m : ℕ) (hm : m < ts.length),
      ws.map Word.time = ts.map some →
      ts.Pairwise (· < ·) →
      (∀ q ∈ ts, q ≠ 0) →
      T = ts.get ⟨m, hm⟩ →
      eT ≠ T →
      indexScan d T ws i eI eT = some ((i : ℤ) + m) := by
  induction ts with
  | nil =>
    intro ws i eI eT m hm
    exact absurd hm (by simp)
  | cons t0 ts ih =>
    intro ws i eI eT m hm hmap hpw hnz hT heT
    cases ws with
    | nil => simp at hmap
    | cons w ws' =>
      simp only [List.map_cons, List.cons.injEq] at hmap
      obtain ⟨hw0, hmap'⟩ := hmap
      have hnz0 : t0 ≠ 0 := hnz t0 (by simp)
      have h1 : truthyTime (some t0) = true := by simp [truthyTime, hnz0]
      rw [indexScan, hw0, h1, if_neg (by simp : ¬(true = false ∧ ws'.isEmpty = true)), h1]
      simp only [Option.getD_some]
      cases m with
      | zero =>
        have hT0 : T = t0 := by simpa using hT
        have hden : t0 - eT ≠ 0 := sub_ne_zero.mpr (fun h => heT (h ▸ hT0.symm))
        rw [if_pos (Or.inr ⟨trivial, hT0.le⟩), if_neg (fun h => hden h)]
        have hdiv : (T - eT) / (t0 - eT) = 1 := by
          rw [hT0]; exact div_self hden
        rw [hdiv]
        have harith : (eI : ℚ) + 1 * ((i : ℚ) - (eI : ℚ)) = (i : ℚ) := by ring
        rw [harith, truncQ_natCast]
        norm_num
      | succ m' =>
        have hm' : m' < ts.length := by simpa using hm
        have hT' : T = ts.get ⟨m', hm'⟩ := by simpa using hT
        rw [List.pairwise_cons] at hpw
        obtain ⟨hlt, hpw'⟩ := hpw
        have ht0T : t0 < T := by rw [hT']; exact hlt _ (List.get_mem ts _ _)
        have hnE : ws'.isEmpty = false := by
          cases ws' with
          | nil =>
            cases ts with
            | nil => exact absurd hm' (by simp)
            | cons u us => simp at hmap'
          | cons v vs => rfl
        rw [hnE]
        rw [if_neg (by
          rintro (h | ⟨-, hle⟩)
          · cases h
          · exact absurd hle (not_le.mpr ht0T))]
        rw [if_pos trivial]
        have hrec := ih ws' (i + 1) i t0 m' hm' hmap' hpw'
          (fun q hq => hnz q (by simp [hq])) hT' (ne_of_lt ht0T)
        rw [hrec]
        congr 1
        push_cast
        ring

/-- C5 (amended): on a fully-timed timeline whose explicit times are all
nonzero and strictly increasing, with a truthy duration,
`getIndexForTime(time(m))` returns `m` for every valid index `m`.  (As
stated the claim is false: with merely non-decreasing times — duplicates —
the scan stops at the first word whose time is `>= timestamp`, see the
counterexample.) -/
theorem getIndexForTime_inverse_strict (l : Lyrics) (ts : List ℚ)
    (hmap : l.words.map Word.time = ts.map some)
    (hpw : ts.Pairwise (· < ·))
    (hnz : ∀ q ∈ ts, q ≠ 0)
    (hdur : truthyTime l.duration = true)
    (m : ℕ) (hm : m < ts.length) :
    getIndexForTime l (ts.get ⟨m, hm⟩) = .ok (some (m : ℤ)) := by
  unfold getIndexForTime
  rw [if_neg (by rw [hdur]; simp)]
  rw [indexScan_strict_hit (l.duration.getD 0) _ ts l.words 0 0 0 m hm hmap hpw hnz rfl
    (fun h => hnz _ (List.get_mem ts _ _) h.symm)]
  norm_num

/-- C5 (counterexample to the claim as stated): the fully-timed two-word
timeline `[a@1, b@1]` (duration 10) has `getIndexForTime(time(1)) =
getIndexForTime(1) = 0`, not `1` — with equal neighbouring times the scan
stops at the first word whose time is `>= timestamp`. -/
theorem index_time_inverse_counterexample :
    (∀ w ∈ (Lyrics.mk [⟨"a", some 1⟩, ⟨"b", some 1⟩] (some 10)).words, w.time ≠ none) ∧
    tOf [⟨"a", some 1⟩, ⟨"b", some 1⟩] 1 = some 1 ∧
    getIndexForTime ⟨[⟨"a", some 1⟩, ⟨"b", some 1⟩], some 10⟩ 1 = .ok (some 0) ∧
    (0 : ℤ) ≠ 1 := by
  refine ⟨by with_unfolding_all decide, rfl, by with_unfolding_all decide, by decide⟩

theorem getIndexForTime_inverse_strict_witness :
    getIndexForTime ⟨[⟨"a", some 1⟩, ⟨"b", some 2⟩], some 10⟩
        (([1, 2] : List ℚ).get ⟨1, by norm_num⟩)
      = .ok (some (1 : ℤ)) :=
  getIndexForTime_inverse_strict ⟨[⟨"a", some 1⟩, ⟨"b", some 2⟩], some 10⟩ [1, 2] rfl
    (by norm_num)
    (by intro q hq; simp only [List.mem_cons, List.not_mem_nil, or_false] at hq
        rcases hq with h | h <;> subst h <;> norm_num)
    (by with_unfolding_all decide) 1 (by norm_num)

/-- C7 (amended): `getApproximateTime` validates only that `index` is a
Number.  For an integer `index` it throws (a TypeError from `this[i]` being
`undefined` — not the spec's `InvalidIndex` assertion, which only rejects
non-Number arguments) exactly when `index < -1` or `index > length`; in
particular every valid index, and also the out-of-range indices `-1` and
`length`, complete without error. -/
theorem getApproximateTime_failure_char (l : Lyrics) (index : ℤ) :
    (∃ e, getApproximateTime l index = .error e) ↔
      (index < -1 ∨ (l.words.length : ℤ) < index) := by
  unfold getApproximateTime
  by_cases h1 : 0 ≤ index - 1 ∧ (l.words.length : ℤ) ≤ index - 1
  · rw [if_pos h1]
    exact ⟨fun _ => by omega, fun _ => ⟨.typeError, rfl⟩⟩
  · rw [if_neg h1]
    by_cases h2 : index + 1 < (l.words.length : ℤ) ∧ index + 1 < 0
    · rw [if_pos h2]
      exact ⟨fun _ => by omega, fun _ => ⟨.typeError, rfl⟩⟩
    · rw [if_neg h2]
      constructor
      · rintro ⟨e, he⟩
        cases hlt : (findLaterAnchor l.words l.duration index).2 with
        | none => rw [hlt] at he; exact Except.noConfusion he
        | some lT =>
          rw [hlt] at he
          split at he
          all_goals
            first
            | exact Except.noConfusion he
            | (split at he <;> exact Except.noConfusion he)
      · intro hout
        exfalso
        omega

/-- C7 (counterexample to the claim as stated): on a two-word timeline,
`getApproximateTime(2)` — an index `>= length`, hence not a valid index —
does not fail at all: it extrapolates and returns a value (here `20`).
The claimed `InvalidIndex` failure for out-of-range integer indices does
not exist. -/
theorem invalid_index_no_failure_counterexample :
    getApproximateTime ⟨[⟨"a", none⟩, ⟨"b", none⟩], some 10⟩ 2 = .ok (some 20) ∧
    (Lyrics.mk [⟨"a", none⟩, ⟨"b", none⟩] (some 10)).words.length = 2 := by
  refine ⟨by with_unfolding_all decide, rfl⟩

/-- Reads a string of decimal digits back as a number (used only to state
what the rendered fields of `toTimer` contain). -/
def decDigits (s : String) : Option ℕ :=
  if s.data ≠ [] ∧ s.data.all Char.isDigit then
    some (s.data.foldl (fun acc c => 10 * acc + (c.toNat - 48)) 0)
  else none

theorem padField_spec : ∀ v : ℕ, v < 100 →
    (padField (v : ℤ)).length = 2 ∧ decDigits (padField (v : ℤ)) = some v := by decide

set_option maxRecDepth 10000 in
set_option maxHeartbeats 1000000 in
theorem padMs_spec : ∀ v : ℕ, v < 1000 → v ≠ 10 →
    (padMs (v : ℤ)).length = 3 ∧ decDigits (padMs (v : ℤ)) = some v := by decide

theorem truncQ_of_nonneg (q : ℚ) (h : 0 ≤ q) : truncQ q = ⌊q⌋ := if_pos h

theorem floor_div_sixty (q : ℚ) : ⌊q / 60⌋ = ⌊q⌋ / 60 := by
  apply le_antisymm
  · rw [Int.le_ediv_iff_mul_le (by norm_num : (0:ℤ) < 60), Int.le_floor]
    have h := Int.floor_le (q / 60)
    have h2 := mul_le_mul_of_nonneg_right h (by norm_num : (0:ℚ) ≤ 60)
    rw [div_mul_cancel₀ _ (by norm_num : (60:ℚ) ≠ 0)] at h2
    push_cast
    linarith
  · rw [Int.le_floor, le_div_iff₀ (by norm_num : (0:ℚ) < 60)]
    have h1 : (⌊q⌋ / 60) * 60 ≤ ⌊q⌋ := by omega
    calc ((⌊q⌋ / 60 : ℤ) : ℚ) * 60 = (((⌊q⌋ / 60) * 60 : ℤ) : ℚ) := by push_cast; ring
    _ ≤ (⌊q⌋ : ℚ) := by exact_mod_cast h1
    _ ≤ q := Int.floor_le q

theorem jsFmod_sixty_floor (q : ℚ) (h : 0 ≤ q) : ⌊jsFmod q 60⌋ = ⌊q⌋ % 60 := by
  unfold jsFmod
  rw [truncQ_of_nonneg _ (by positivity)]
  have hc : q - 60 * ((⌊q / 60⌋ : ℤ) : ℚ) = q - ((60 * ⌊q / 60⌋ : ℤ) : ℚ) := by
    push_cast; ring
  rw [hc, Int.floor_sub_int, floor_div_sixty]
  omega

/-- C6 (amended): for `0 <= time < 6000` seconds (minutes fit in two
digits) whose millisecond field is not exactly `10`, `toTimer` without
hours renders `mm:ss.mmm` with minutes `⌊time/60⌋` and seconds
`⌊time⌋ mod 60` zero-padded to 2 digits and milliseconds truncated toward
zero and zero-padded to 3 digits; and `toTimer(65.25) = "01:05.250"`.
(As stated the claim is false: a millisecond value of exactly `10` renders
as the four digits `"0010"` — the code tests `ms > 10`, not `ms >= 10` —
and minutes of 100 or more widen the minute field; see the
counterexample.) -/
theorem toTimer_field_format :
    (∀ q : ℚ, 0 ≤ q → q < 6000 → ⌊(q - (⌊q⌋ : ℚ)) * 1000⌋ ≠ 10 →
      ∃ mm ss mss : String,
        toTimer q false = mm ++ ":" ++ ss ++ "." ++ mss ∧
        mm.length = 2 ∧ ss.length = 2 ∧ mss.length = 3 ∧
        decDigits mm = some ⌊q / 60⌋.toNat ∧
        decDigits ss = some ((⌊q⌋ % 60).toNat) ∧
        decDigits mss = some (⌊(q - (⌊q⌋ : ℚ)) * 1000⌋.toNat)) ∧
    toTimer (261/4) false = "01:05.250" := by
  constructor
  · intro q h0 h6 hms
    have hm0 : 0 ≤ ⌊q / 60⌋ := Int.floor_nonneg.mpr (by positivity)
    have hm100 : ⌊q / 60⌋ < 100 := by
      rw [Int.floor_lt]
      rw [div_lt_iff₀ (by norm_num : (0:ℚ) < 60)]
      push_cast
      linarith
    have hs0 : 0 ≤ ⌊q⌋ % 60 := Int.emod_nonneg _ (by norm_num)
    have hs60 : ⌊q⌋ % 60 < 60 := Int.emod_lt_of_pos _ (by norm_num)
    have hms0 : 0 ≤ ⌊(q - (⌊q⌋ : ℚ)) * 1000⌋ := by
      apply Int.floor_nonneg.mpr
      have := Int.floor_le q
      nlinarith
    have hms1000 : ⌊(q - (⌊q⌋ : ℚ)) * 1000⌋ < 1000 := by
      rw [Int.floor_lt]
      have := Int.lt_floor_add_one q
      push_cast
      nlinarith
    refine ⟨padField ⌊q / 60⌋, padField ⌊jsFmod q 60⌋,
      padMs ⌊(q - (⌊q⌋ : ℚ)) * 1000⌋, ?_, ?_, ?_, ?_, ?_, ?_, ?_⟩
    · simp only [toTimer, Bool.false_eq_true, if_false]
    · rw [show (⌊q / 60⌋ : ℤ) = ((⌊q / 60⌋.toNat : ℕ) : ℤ) from (Int.toNat_of_nonneg hm0).symm]
      exact (padField_spec _ (by omega)).1
    · rw [jsFmod_sixty_floor q h0,
        show (⌊q⌋ % 60 : ℤ) = (((⌊q⌋ % 60).toNat : ℕ) : ℤ) from (Int.toNat_of_nonneg hs0).symm]
      exact (padField_spec _ (by omega)).1
    · rw [show (⌊(q - (⌊q⌋ : ℚ)) * 1000⌋ : ℤ)
          = ((⌊(q - (⌊q⌋ : ℚ)) * 1000⌋.toNat : ℕ) : ℤ) from (Int.toNat_of_nonneg hms0).symm]
      exact (padMs_spec _ (by omega) (by omega)).1
    · rw [show (⌊q / 60⌋ : ℤ) = ((⌊q / 60⌋.toNat : ℕ) : ℤ) from (Int.toNat_of_nonneg hm0).symm]
      exact (padField_spec _ (by omega)).2
    · rw [jsFmod_sixty_floor q h0,
        show (⌊q⌋ % 60 : ℤ) = (((⌊q⌋ % 60).toNat : ℕ) : ℤ) from (Int.toNat_of_nonneg hs0).symm]
      exact (padField_spec _ (by omega)).2
    · rw [show (⌊(q - (⌊q⌋ : ℚ)) * 1000⌋ : ℤ)
          = ((⌊(q - (⌊q⌋ : ℚ)) * 1000⌋.toNat : ℕ) : ℤ) from (Int.toNat_of_nonneg hms0).symm]
      exact (padMs_spec _ (by omega) (by omega)).2
  · with_unfolding_all decide

/-- C6 (counterexample to the claim as stated): `toTimer(0.01)` renders
the 10-millisecond field as the four digits `"0010"` (the code's
`ms > 10` test sends `ms == 10` to the `'00' + ms` branch), and
`toTimer(6000)` renders a three-digit minute field — in both cases the
output is 10 characters, not the 9 of a `mm:ss.fff` rendering. -/
theorem toTimer_padding_counterexample :
    (0 : ℚ) ≤ 1/100 ∧ toTimer (1/100) false = "00:00.0010" ∧
    (0 : ℚ) ≤ 6000 ∧ toTimer 6000 false = "100:00.000" := by
  refine ⟨by norm_num, by with_unfolding_all decide, by norm_num, by with_unfolding_all decide⟩

theorem toTimer_field_format_witness :
    ∃ mm ss mss : String,
      toTimer (261/4) false = mm ++ ":" ++ ss ++ "." ++ mss ∧
      mm.length = 2 ∧ ss.length = 2 ∧ mss.length = 3 ∧
      decDigits mm = some ⌊(261/4 : ℚ) / 60⌋.toNat ∧
      decDigits ss = some ((⌊(261/4 : ℚ)⌋ % 60).toNat) ∧
      decDigits mss = some (⌊((261/4 : ℚ) - (⌊(261/4 : ℚ)⌋ : ℚ)) * 1000⌋.toNat) :=
  toTimer_field_format.1 (261/4) (by norm_num) (by norm_num) (by with_unfolding_all decide)

/-! ## The `fromLRC` parser and the `toELRC` serializer

`Lyrics.fromLRC` (lyrics.js lines 212-310) is driven by a handful of
regular expressions; each one is transliterated below into a scanning
function with the exact backtracking behaviour of the JS pattern on the
strings it is applied to (the relevant subtleties are noted at each
definition).  All scanning works on `List Char`.  -/

/-- The whitespace class used by JS `trim()` and `\s`
(the characters occurring in practice; exotic Unicode spaces of the full
ECMAScript class are not modelled). -/
def jsWhitespace (c : Char) : Bool :=
  c == ' ' || c == '\t' || c == '\n' || c == '\r' || c == '\x0b' || c == '\x0c' ||
    c == '\xa0' || c == '　' || c == Char.ofNat 0xFEFF

/-- `replace(/ +/g, " ")`: collapse each run of ASCII spaces to one. -/
def collapseSpacesAux (prevSpace : Bool) (l : List Char) : List Char :=
  match l with
  | [] => []
  | c :: rest =>
    if c = ' ' then
      if prevSpace then collapseSpacesAux true rest
      else ' ' :: collapseSpacesAux true rest
    else c :: collapseSpacesAux false rest

/-- `replace(/ +\n/g, "\n")`: drop spaces directly before a newline
(`pending` counts spaces seen but not yet emitted). -/
def stripSpacesNlAux (pending : ℕ) (l : List Char) : List Char :=
  match l with
  | [] => List.replicate pending ' '
  | c :: rest =>
    if c = ' ' then stripSpacesNlAux (pending + 1) rest
    else if c = '\n' then '\n' :: stripSpacesNlAux 0 rest
    else List.replicate pending ' ' ++ c :: stripSpacesNlAux 0 rest

/-- JS `String.prototype.trim()`. -/
def jsTrim (l : List Char) : List Char :=
  ((l.dropWhile jsWhitespace).reverse.dropWhile jsWhitespace).reverse

/-- `replace(/(?:\r\n|\r|\n)/g, "<br>\n")`. -/
def nlToBr (l : List Char) : List Char :=
  match l with
  | [] => []
  | '\r' :: '\n' :: rest => '<' :: 'b' :: 'r' :: '>' :: '\n' :: nlToBr rest
  | '\r' :: rest => '<' :: 'b' :: 'r' :: '>' :: '\n' :: nlToBr rest
  | '\n' :: rest => '<' :: 'b' :: 'r' :: '>' :: '\n' :: nlToBr rest
  | c :: rest => c :: nlToBr rest

/-- The preprocessing chain of lyrics.js line 217:
`text.replace(/ +/g," ").replace(/　/g,"").replace(/ +\n/g,"\n").trim()
.replace(/(?:\r\n|\r|\n)/g, "<br>\n")`. -/
def preprocessLrc (l : List Char) : List Char :=
  nlToBr (jsTrim (stripSpacesNlAux 0 (List.filter (fun c => c ≠ '　') (collapseSpacesAux false l))))

/-- `allText.split(/\r\n|\n/)`; after preprocessing no `\r` remains (every
newline form was rewritten to `"<br>\n"`), so splitting on `\n` is exact. -/
def splitOnNl (l : List Char) : List (List Char) :=
  match l with
  | [] => [[]]
  | c :: rest =>
    if c = '\n' then [] :: splitOnNl rest
    else
      match splitOnNl rest with
      | [] => [[c]]
      | line :: ls => (c :: line) :: ls

/-- `Array.prototype.toString()`: elements joined with commas. -/
def joinWithCommas (ls : List (List Char)) : List Char :=
  match ls with
  | [] => []
  | [l] => l
  | l :: ls => l ++ ',' :: joinWithCommas ls

theorem splitOnNl_nonnil (l : List Char) : splitOnNl l ≠ [] := by
  match l with
  | [] => simp [splitOnNl]
  | c :: rest =>
    unfold splitOnNl
    split
    · simp
    · match splitOnNl rest with
      | [] => simp
      | line :: ls => simp

/-- The `isElrc` test `/(?:\<)(\d*)(?::)(\S*?)(?:\>)/i` on the joined
lines: after a `<`, the maximal digit run must be followed by `:`
(backtracking cannot help — fewer digits leave a digit where `:` is
required), and the lazy `\S*?` succeeds iff the first subsequent character
that is `>` or whitespace is `>`. -/
def hasInlineTag (l : List Char) : Bool :=
  match l with
  | [] => false
  | '<' :: rest =>
    (match rest.dropWhile Char.isDigit with
     | ':' :: r2 =>
       (match r2.dropWhile (fun c => c ≠ '>' ∧ ¬ jsWhitespace c) with
        | '>' :: _ => true
        | _ => false)
     | _ => false) || hasInlineTag rest
  | _ :: rest => hasInlineTag rest

/-- Numeric value of a digit string. -/
def digitsVal (l : List Char) : ℕ :=
  l.foldl (fun acc c => 10 * acc + (c.toNat - 48)) 0

/-- `parseInt` applied to a `(\d*)` capture (a pure digit string):
`NaN` (`none`) when empty. -/
def jsParseIntDigits (ds : List Char) : Option ℚ :=
  if ds = [] then none else some (digitsVal ds)

/-- `parseFloat`: skip leading whitespace, then parse the longest
`[+-]? (digits [. digits*] | . digits+)` prefix; `NaN` if none.
(Exponent notation is not modelled; no analysed string uses it.) -/
def jsParseFloatPrefix (l : List Char) : Option ℚ :=
  let t := l.dropWhile jsWhitespace
  let sr : ℚ × List Char :=
    match t with
    | '-' :: r => (-1, r)
    | '+' :: r => (1, r)
    | r => (1, r)
  let ip := sr.2.takeWhile Char.isDigit
  match sr.2.dropWhile Char.isDigit with
  | '.' :: r3 =>
    let fp := r3.takeWhile Char.isDigit
    if ip = [] ∧ fp = [] then none
    else some (sr.1 * ((digitsVal ip : ℚ) + (digitsVal fp : ℚ) / (10 : ℚ) ^ fp.length))
  | _ => if ip = [] then none else some (sr.1 * (digitsVal ip : ℚ))

/-- JS `Number(string)` (used for the `[offset:...]` value): whitespace-only
is `0`; otherwise the whole trimmed string must be a signed decimal literal,
else `NaN`.  (Exponent/hex/`Infinity` forms are not modelled.) -/
def jsNumberOfString (l : List Char) : Option ℚ :=
  let t := jsTrim l
  if t = [] then some 0
  else
    let sr : ℚ × List Char :=
      match t with
      | '-' :: r => (-1, r)
      | '+' :: r => (1, r)
      | r => (1, r)
    let ip := sr.2.takeWhile Char.isDigit
    match sr.2.dropWhile Char.isDigit with
    | [] => if ip = [] then none else some (sr.1 * (digitsVal ip : ℚ))
    | '.' :: r3 =>
      let fp := r3.takeWhile Char.isDigit
      if r3.dropWhile Char.isDigit ≠ [] then none
      else if ip = [] ∧ fp = [] then none
      else some (sr.1 * ((digitsVal ip : ℚ) + (digitsVal fp : ℚ) / (10 : ℚ) ^ fp.length))
    | _ => none

/-- ASCII lower-casing, for the case-insensitive `[offset:` search. -/
def lowerAscii (c : Char) : Char :=
  if 'A' ≤ c ∧ c ≤ 'Z' then Char.ofNat (c.toNat + 32) else c

def startsWithCI (pat s : List Char) : Bool :=
  match pat, s with
  | [], _ => true
  | _ :: _, [] => false
  | p :: ps, c :: cs => lowerAscii c == lowerAscii p && startsWithCI ps cs

/-- Split a list at the LAST occurrence of `target`:
`(before, after)`, or `none` if absent. -/
def splitAtLastChar (target : Char) (l : List Char) : Option (List Char × List Char) :=
  match l.reverse.dropWhile (fun c => c ≠ target) with
  | [] => none
  | _ :: tl => some (tl.reverse, (l.reverse.takeWhile (fun c => c ≠ target)).reverse)

/-- The `allText.match(/(?:\[offset:)(.*)(?:])/i)` search: the first
position where `[offset:` (case-insensitively) is followed, within the
same line (`.` does not cross `\n`), by a `]`; the greedy `(.*)` captures
up to the LAST `]` of that line. -/
def extractOffsetContent (l : List Char) : Option (List Char) :=
  match l with
  | [] => none
  | c :: rest =>
    if startsWithCI ("[offset:".data) (c :: rest) then
      match splitAtLastChar ']' (((c :: rest).drop 8).takeWhile (fun ch => ch ≠ '\n')) with
      | some p => some p.1
      | none => extractOffsetContent rest
    else extractOffsetContent rest

/-- The parsed `offset` of `fromLRC`: `0` when the directive is absent,
else `matches[1] / 1000` (`none` = `NaN` for a malformed value, which then
poisons every word time additively). -/
def lrcOffset (chars : List Char) : Option ℚ :=
  match extractOffsetContent chars with
  | none => some 0
  | some content =>
    match jsNumberOfString content with
    | some v => some (v / 1000)
    | none => none

/-- The per-line match `/^(\[)(\d*)(:)(.*)(\])(.*)/i`: a `[`, the maximal
digit run, a mandatory `:`, then the greedy `(.*)(\])` puts the LAST `]`
of the line as the separator (lines contain no `\n`, so `.` is
unrestricted here).  Returns `(digits, line[4], line[6])`. -/
def lineMatch (l : List Char) : Option (List Char × List Char × List Char) :=
  match l with
  | '[' :: r1 =>
    (match r1.dropWhile Char.isDigit with
     | ':' :: r3 =>
       match splitAtLastChar ']' r3 with
       | some p => some (r1.takeWhile Char.isDigit, p.1, p.2)
       | none => none
     | _ => none)
  | _ => none

/-- `parseInt(line[2]) * 60 + parseFloat(line[4])`: `NaN` (`none`) if
either part fails. -/
def timeOfGroups (ds sec : List Char) : Option ℚ :=
  match jsParseIntDigits ds, jsParseFloatPrefix sec with
  | some a, some b => some (a * 60 + b)
  | _, _ => none

/-- The first-word extraction `line[6].match(/ (.*?)(?: |$)/i)` of the
enhanced branch: the first space, then the lazy capture up to the next
space or the end of the line (lines contain no `\n` at this point, so the
`.`-restriction is moot).  `none` models a `null` match (no space at all),
on which `tmp[0]` throws. -/
def tmpFirstWord (rest : List Char) : Option (List Char) :=
  match rest.dropWhile (fun c => c ≠ ' ') with
  | [] => none
  | _ :: afterSpace => some (afterSpace.takeWhile (fun c => c ≠ ' '))

/-- Scanning for `(?:\>) ` after the lazy `(.*?)` of the inline-tag pair
regex: the capture extends to the first `>` that is directly followed by a
space (a `>` followed by anything else is consumed by the lazy `.`);
`.` cannot cross `\n`, and reaching the end without a `"> "` fails. -/
def findTagClose (l : List Char) : Option (List Char × List Char) :=
  match l with
  | [] => none
  | '>' :: ' ' :: rest => some ([], rest)
  | '\n' :: _ => none
  | c :: rest =>
    match findTagClose rest with
    | some p => some (c :: p.1, p.2)
    | none => none

/-- The global loop `regex.exec` over
`/(?:\<)(\d*)(?::)(.*?)(?:\>) (.*?)(?: |\n|$)/g` (lyrics.js lines
276-285): each successful match consumes through the word's trailing
separator, and a failed attempt at a `<` resumes scanning at the next
character.  `fuel` bounds the iteration (`length + 1` always suffices,
every step consumes at least one character). -/
def pairScan (fuel : ℕ) (l : List Char) : List (Option ℚ × List Char) :=
  match fuel with
  | 0 => []
  | fuel + 1 =>
    match l with
    | [] => []
    | '<' :: rest =>
      (match rest.dropWhile Char.isDigit with
       | ':' :: r2 =>
         match findTagClose r2 with
         | some p =>
           let w := p.2.takeWhile (fun c => c ≠ ' ' ∧ c ≠ '\n')
           let r4 := p.2.dropWhile (fun c => c ≠ ' ' ∧ c ≠ '\n')
           let r5 := match r4 with
             | _ :: t => t
             | [] => []
           (timeOfGroups (rest.takeWhile Char.isDigit) p.1, w) :: pairScan fuel r5
         | none => pairScan fuel rest
       | _ => pairScan fuel rest)
    | _ :: rest => pairScan fuel rest

/-- The lazy `(\S*?)` of the closing-tag regex
`/(?:\<)(\d*)(?::)(\S*?)(?:\>\n|\>$)/i`: consume non-whitespace characters
until a `>` that sits at the end of the line (or before `\n`); whitespace
fails the attempt, a `>` elsewhere is consumed and scanning continues. -/
def scanCloseAngle (l acc : List Char) : Option (List Char) :=
  match l with
  | [] => none
  | ['>'] => some acc.reverse
  | '>' :: '\n' :: _ => some acc.reverse
  | c :: rest => if jsWhitespace c then none else scanCloseAngle rest (c :: acc)

/-- The closing-timestamp search of lyrics.js lines 287-291 (first match
of the regex above anywhere in `line[6]`); the outer `none` means no
match, the inner value is the parsed time (`none` = `NaN`). -/
def closeTagValue (l : List Char) : Option (Option ℚ) :=
  match l with
  | [] => none
  | '<' :: rest =>
    (match rest.dropWhile Char.isDigit with
     | ':' :: r2 =>
       match scanCloseAngle r2 [] with
       | some sec => some (timeOfGroups (rest.takeWhile Char.isDigit) sec)
       | none => closeTagValue rest
     | _ => closeTagValue rest)
  | _ :: rest => closeTagValue rest

/-- `split(/\s+/g)`: split on maximal whitespace runs, keeping the empty
boundary tokens JS produces for leading/trailing whitespace. -/
def jsSplitWs (fuel : ℕ) (l : List Char) : List (List Char) :=
  match fuel with
  | 0 => [l]
  | fuel + 1 =>
    let w := l.takeWhile (fun c => ¬ jsWhitespace c)
    match l.dropWhile (fun c => ¬ jsWhitespace c) with
    | [] => [w]
    | _ :: r2 => w :: jsSplitWs fuel (r2.dropWhile jsWhitespace)

/-- JS `+` where either side may be `NaN`/`undefined` (`none`). -/
def jsAdd (a b : Option ℚ) : Option ℚ :=
  match a, b with
  | some x, some y => some (x + y)
  | _, _ => none

/-- Read `tim[i][index]` / `tim[index]`: an out-of-range read yields
`undefined`, which poisons the subsequent addition like `NaN` (`none`). -/
def timAt (tims : List (Option ℚ)) (idx : ℕ) : Option ℚ :=
  match tims.get? idx with
  | some v => v
  | none => none

/-- One enhanced line (lyrics.js lines 270-291): `tim[i] = [lineTime,
pair times..., closing time?]`, `lyrics[i] = [tmp[0].trim(), pair
words...]`.  A line whose `line[6]` contains no space makes `tmp[0]`
throw. -/
def enhancedLine (t : Option ℚ) (rest : List Char) :
    Except JsError (List (Option ℚ) × List (List Char)) :=
  match tmpFirstWord rest with
  | none => .error .typeError
  | some w0 =>
    let pairs := pairScan (rest.length + 1) rest
    let tims := t :: pairs.map Prod.fst
    let tims2 :=
      match closeTagValue rest with
      | some v => tims ++ [v]
      | none => tims
    .ok (tims2, jsTrim w0 :: pairs.map Prod.snd)

/-- The enhanced-branch word assembly (lyrics.js lines 241-247):
`$.map(lyrics[i], (item, index) => item && item != "<br>" ?
{text: item.trim(), time: tim[i][index] + offset} : undefined)`. -/
def enhancedWords (offset : Option ℚ) (tims : List (Option ℚ))
    (lyr : List (List Char)) : List Word :=
  lyr.enum.filterMap fun p =>
    if p.2 ≠ [] ∧ p.2 ≠ "<br>".data then
      some ⟨String.mk (jsTrim p.2), jsAdd (timAt tims p.1) offset⟩
    else none

/-- The plain-branch word assembly (lyrics.js lines 249-257):
`$.map(lyrics[i].split(/\s+/g), (item, index) => item && item != "<br>" ?
{text: item.trim(), time: tim[index] + offset} : undefined)`.
NOTE the source reads `tim[index]` — `index` is the word's position
WITHIN its line, not the line number `i`; the word at position `p` of any
line receives the `p`-th matched line's timestamp. -/
def plainWords (offset : Option ℚ) (tims : List (Option ℚ))
    (lineTxt : List Char) : List Word :=
  (jsSplitWs (lineTxt.length + 1) lineTxt).enum.filterMap fun p =>
    if p.2 ≠ [] ∧ p.2 ≠ "<br>".data then
      some ⟨String.mk (jsTrim p.2), jsAdd (timAt tims p.1) offset⟩
    else none

/-- `Lyrics.fromLRC(text, duration)` (lyrics.js lines 212-310).

Unmatched lines leave holes in `tim`/`lyrics`; `filter(defined)` then
compacts them away, so only matched lines contribute, in order
(`filterMap lineMatch`).  The `defined` predicate `data != 'undefined'`
additionally drops values loosely equal to the string `"undefined"`:
a number (even `NaN`) never is; a string is iff it IS `"undefined"`; an
array of strings is iff it joins (with commas) to `"undefined"`.  The
`tim` arrays hold only numbers and are therefore always kept (a number's
string rendering is never `"undefined"` and joining several inserts a
comma), which the model exploits by filtering only the `lyrics` side.
After the two independent filters, `lyrics[i]` is paired with `tim[i]`
positionally; since filtering only removes entries,
`lyrics.length <= tim.length` always holds in the enhanced branch, so the
`tim[i]` read never goes out of range there. -/
def fromLRC (text : String) (duration : Option ℚ) : Except JsError Lyrics :=
  let chars := preprocessLrc text.data
  let offset := lrcOffset chars
  let lines := splitOnNl chars
  let matched := lines.filterMap lineMatch
  if hasInlineTag (joinWithCommas lines) then
    (matched.mapM fun g => enhancedLine (timeOfGroups g.1 g.2.1) g.2.2).map fun entries =>
      let tims := entries.map Prod.fst
      let lyrs := (entries.map Prod.snd).filter fun e => joinWithCommas e ≠ "undefined".data
      ⟨((List.range lyrs.length).map fun i =>
          enhancedWords offset ((tims.get? i).getD []) ((lyrs.get? i).getD [])).flatten,
        duration⟩
  else
    let tims := matched.map fun g => timeOfGroups g.1 g.2.1
    let lyrs := (matched.map fun g => g.2.2).filter fun e => e ≠ "undefined".data
    .ok ⟨(lyrs.map fun lineTxt => plainWords offset tims lineTxt).flatten, duration⟩

/-- `text.includes("<br>")`. -/
def containsBr (l : List Char) : Bool :=
  match l with
  | [] => false
  | '<' :: 'b' :: 'r' :: '>' :: _ => true
  | _ :: rest => containsBr rest

/-- `text.replace("<br>", "")`: remove the FIRST occurrence only (a string
pattern in JS `replace` is not global). -/
def dropFirstBr (l : List Char) : List Char :=
  match l with
  | [] => []
  | '<' :: 'b' :: 'r' :: '>' :: rest => rest
  | c :: rest => c :: dropFirstBr rest

/-- The serializer loop of `Lyrics.prototype.toELRC` (lyrics.js lines
128-158).  A word starts a new output line when it is the first word or
follows a `<br>`-carrying word with a truthy time; its bracket tag uses
`word.time || 0`.  Other words get an inline `<...>` tag only when their
time is truthy — an untimed (or zero-timed, or NaN-timed) interior word is
emitted with no tag at all. -/
def toELRCgo (ws : List Word) (isNewLine isFirstWord : Bool) : String :=
  match ws with
  | [] => ""
  | w :: rest =>
    let tmpWord := if containsBr w.text.data then String.mk (dropFirstBr w.text.data)
      else w.text
    let seg :=
      if isNewLine || isFirstWord then
        "\n[" ++ toTimer (if truthyTime w.time then w.time.getD 0 else 0) false ++ "]"
      else if truthyTime w.time then
        " <" ++ toTimer (w.time.getD 0) false ++ ">"
      else ""
    seg ++ " " ++ tmpWord ++ toELRCgo rest (containsBr w.text.data && truthyTime w.time) false

def toELRC (l : Lyrics) : String := toELRCgo l.words false true

/-- C2 (the code contradicts the claim): for the plain (non-enhanced) LRC
input `"[00:11.00]a b\n[00:22.00]c d"`, the claim demands
`a@11, b@11, c@22, d@22` — the same line-level timestamp for every word of
a line.  The code instead evaluates `tim[index] + offset` where `index` is
the word's position WITHIN its line (not the line number `i`), so the
second word of line 1 receives line 2's timestamp and the first word of
line 2 receives line 1's: `a@11, b<br>@22, c@11, d@22`.  (The enhanced
branch (line 244) correctly reads `tim[i][index]`; line 253's `tim[index]`
is evidently a slip for `tim[i]`.) -/
theorem plain_lrc_line_timestamp_bug :
    fromLRC "[00:11.00]a b\n[00:22.00]c d" (some 10)
      = .ok ⟨[⟨"a", some 11⟩, ⟨"b<br>", some 22⟩, ⟨"c", some 11⟩, ⟨"d", some 22⟩],
          some 10⟩ ∧
    some (22 : ℚ) ≠ some (11 : ℚ) := by
  refine ⟨by with_unfolding_all decide, by with_unfolding_all decide⟩

/-- C3 (the code contradicts the claim): `fromLRC` on
`"[offset:-2000]\n[00:02.00]<00:02.00> a <00:03.00> b"` produces the
three-word timeline `a@0, a@0, b@1`; serializing it with `toELRC` emits no
inline tag for the interior word whose explicit time is `0` (the
`else if (word.time)` test is falsy at `0`), and re-parsing the output
yields only two words `a@0, b@1` — word texts are NOT preserved by the
round trip. -/
theorem elrc_round_trip_failure :
    fromLRC "[offset:-2000]\n[00:02.00]<00:02.00> a <00:03.00> b" (some 10)
      = .ok ⟨[⟨"a", some 0⟩, ⟨"a", some 0⟩, ⟨"b", some 1⟩], some 10⟩ ∧
    toELRC ⟨[⟨"a", some 0⟩, ⟨"a", some 0⟩, ⟨"b", some 1⟩], some 10⟩
      = "\n[00:00.000] a a <00:01.000> b" ∧
    fromLRC "\n[00:00.000] a a <00:01.000> b" (some 10)
      = .ok ⟨[⟨"a", some 0⟩, ⟨"b", some 1⟩], some 10⟩ ∧
    ([⟨"a", some 0⟩, ⟨"a", some 0⟩, ⟨"b", some 1⟩] : List Word).length
      ≠ ([⟨"a", some 0⟩, ⟨"b", some 1⟩] : List Word).length := by
  refine ⟨by with_unfolding_all decide, by with_unfolding_all decide,
    by with_unfolding_all decide, by decide⟩

/-- C4 (counterexample to the claim as stated): the input yields THREE
words, not two — the first-word extraction `/ (.*?)(?: |$)/` grabs the
first space-delimited token, which here is the word `a` already carrying
the first inline tag, so `a` is duplicated. -/
theorem enhanced_first_word_counterexample :
    (fromLRC "[00:01.00]<00:01.00> a <00:02.00> b <00:03.00>\n" (some 10)).map
        (fun l => l.words.length) = .ok 3 ∧
    (3 : ℕ) ≠ 2 := by
  refine ⟨by with_unfolding_all decide, by decide⟩

/-- C4 (amended): `fromLRC("[00:01.00]<00:01.00> a <00:02.00> b <00:03.00>\n", 10)`
returns exactly three words: `a@1.0` (the line's leading timestamp paired
with the first space-delimited token), `a@1.0` (the same token again, from
the first inline pair), and `b@2.0`; the trailing `<00:03.00>` is consumed
as a closing timestamp (appended to the time array only) and produces no
further word. -/
theorem enhanced_first_word_parse :
    fromLRC "[00:01.00]<00:01.00> a <00:02.00> b <00:03.00>\n" (some 10)
      = .ok ⟨[⟨"a", some 1⟩, ⟨"a", some 1⟩, ⟨"b", some 2⟩], some 10⟩ := by
  with_unfolding_all decide
